import Mathlib

/-!
Verification of the SANS-fitter parameter registry and fit orchestration
layer (`src/sans_fitter/sans_fitter.py`), as a shallow embedding.

Modelling conventions:
* Python floats are modelled by `ℚ`; the special values `±inf` that can
  occur in parameter bounds are modelled by the three-valued `XFloat`.
* The Python `dict`s (the parameter registry, a result's parameter
  mapping) are modelled by insertion-ordered association lists;
  `dict` assignment that replaces an existing key keeps its position
  (`insertReplace`), matching CPython semantics.
* Exceptions are modelled by `Except` with structured error values; the
  exact punctuation of exception message strings is abstracted into the
  constructors (the data they carry — e.g. the list of available
  parameter names in a Key-Error — is retained).
* External collaborators (sasmodels kernels, the bumps and scipy
  optimizers, the DirectModel calculator) are opaque: their outputs are
  passed in as values (`ModelInfo`, `BumpsResult`, `LmResult`, a
  calculator function).  Backend solution vectors are modelled as
  functions `ℕ → ℚ` read at indices `0..n-1`, mirroring numpy arrays of
  the length the backend contract guarantees.
* Floating point `numpy.sqrt` applied to covariance diagonals is
  modelled by `Rat.sqrt`; no claim depends on the value of a nonzero
  square root.
* String rendering of floats (`format_uncertainty`, `%.6g` formatting)
  is modelled by the tagged value `FormattedVal` that records which
  format template the code chose together with its numeric payloads; in
  particular the `"(fixed)"` annotation is the `FormattedVal.fixedTag`
  constructor.
-/

namespace SansFitter

/-- Decidable equality of exception outcomes, used to evaluate concrete
runs of the fallible operations. -/
instance {ε α : Type} [DecidableEq ε] [DecidableEq α] : DecidableEq (Except ε α)
  | .error e, .error f =>
      if h : e = f then .isTrue (h ▸ rfl)
      else .isFalse (fun hh => h (by injection hh))
  | .error _, .ok _ => .isFalse (fun hh => Except.noConfusion hh)
  | .ok _, .error _ => .isFalse (fun hh => Except.noConfusion hh)
  | .ok a, .ok b =>
      if h : a = b then .isTrue (h ▸ rfl)
      else .isFalse (fun hh => h (by injection hh))

/-! ### Ordered string-keyed mappings (CPython dict semantics) -/

/-- Dict lookup: first (and, with unique keys, only) entry for a name. -/
def lookupParam {α : Type} (ps : List (String × α)) (n : String) : Option α :=
  match ps with
  | [] => none
  | e :: rest => if e.1 = n then some e.2 else lookupParam rest n

/-- Python `name in d`. -/
def containsParam {α : Type} (ps : List (String × α)) (n : String) : Bool :=
  (lookupParam ps n).isSome

/-- Python `d.keys()`, in insertion order. -/
def paramNames {α : Type} (ps : List (String × α)) : List String :=
  ps.map Prod.fst

/-- CPython dict assignment `d[n] = v`: replace in place if the key is
present, otherwise append at the end. -/
def insertReplace {α : Type} (ps : List (String × α)) (n : String) (v : α) :
    List (String × α) :=
  match ps with
  | [] => [(n, v)]
  | e :: rest => if e.1 = n then (n, v) :: rest else e :: insertReplace rest n v

/-- In-place update of the entry named `n` by `f` (the shape of every
`d[n][field] = v` statement in the source). -/
def mapAt {α : Type} (ps : List (String × α)) (n : String) (f : α → α) :
    List (String × α) :=
  ps.map (fun e => if e.1 = n then (e.1, f e.2) else e)

/-! ### The parameter registry -/

/-- Extended float: a Python float that may be `-inf`, finite, or `+inf`.
NaN does not arise in the modelled code paths. -/
inductive XFloat where
  | negInf : XFloat
  | num : ℚ → XFloat
  | posInf : XFloat
deriving DecidableEq

/-- Comparison `a <= b` on extended floats, as Python evaluates it. -/
def XFloat.le : XFloat → XFloat → Bool
  | .negInf, _ => true
  | .num _, .negInf => false
  | .num a, .num b => decide (a ≤ b)
  | .num _, .posInf => true
  | .posInf, .posInf => true
  | .posInf, .num _ => false
  | .posInf, .negInf => false

/-- One entry of `SANSFitter.params`: the dict
`{'value': .., 'min': .., 'max': .., 'vary': .., 'description': ..}`. -/
structure ParamInfo where
  value : ℚ
  min : XFloat
  max : XFloat
  vary : Bool
  description : String
deriving DecidableEq

/-- The parameter registry `self.params`, an insertion-ordered mapping. -/
abbrev Params := List (String × ParamInfo)

/-- Dict assignment `self.params[n]['value'] = v` on an existing key. -/
def setValue (ps : Params) (n : String) (v : ℚ) : Params :=
  mapAt ps n (fun p => { p with value := v })

/-- Error raised by `SANSFitter.set_param`: the `KeyError` whose message
names the missing parameter and enumerates the available ones. -/
structure NotFoundError where
  name : String
  available : List String
deriving DecidableEq

/-- `SANSFitter.set_param` (source lines 166–193): partial update of one
registry entry; each argument that is `None` leaves its field untouched. -/
def set_param (ps : Params) (name : String) (value : Option ℚ)
    (min : Option XFloat) (max : Option XFloat) (vary : Option Bool) :
    Except NotFoundError Params :=
  if containsParam ps name then
    .ok (mapAt ps name (fun p =>
      { value := value.getD p.value
        min := min.getD p.min
        max := max.getD p.max
        vary := vary.getD p.vary
        description := p.description }))
  else
    .error ⟨name, paramNames ps⟩

/-- One declared kernel parameter of a loaded sasmodels model:
`param.name`, `param.default`, `param.limits`, `param.description`. -/
structure KernelParam where
  name : String
  default : ℚ
  limitLo : XFloat
  limitHi : XFloat
  description : String
deriving DecidableEq

/-- The information `set_model` reads off a loaded kernel
(`kernel.info.parameters.kernel_parameters`). -/
structure ModelInfo where
  kernel_parameters : List KernelParam
deriving DecidableEq

/-- The triple `(x, y, dy)` of a loaded dataset. -/
structure DataSet where
  x : List ℚ
  y : List ℚ
  dy : List ℚ
deriving DecidableEq

/-- The whole mutable state of a `SANSFitter` object that the verified
operations read or write.  The two structure-factor fields model state
of the structure-factor extension that is exercised by the repository's
tests but absent from `src` (see the spec-modelled operations below);
they are `none`-initialised and untouched by the plain source code. -/
structure FitterState where
  data : Option DataSet
  kernel : Option ModelInfo
  model_name : Option String
  params : Params
  structureFactor : Option String
  radiusEffectiveMode : Option String
deriving DecidableEq

/-- `SANSFitter.__init__`: everything empty. -/
def initState : FitterState :=
  { data := none, kernel := none, model_name := none, params := []
    structureFactor := none, radiusEffectiveMode := none }

/-- Bound derivation of `set_model`:
`param.limits[0] if param.limits[0] > -np.inf else 0`. -/
def derivedMin (kp : KernelParam) : XFloat :=
  if kp.limitLo = XFloat.negInf then XFloat.num 0 else kp.limitLo

/-- Bound derivation of `set_model`:
`param.limits[1] if param.limits[1] < np.inf else param.default * 10`. -/
def derivedMax (kp : KernelParam) : XFloat :=
  if kp.limitHi = XFloat.posInf then XFloat.num (kp.default * 10) else kp.limitHi

/-- The registry entry `set_model` builds for a declared parameter. -/
def derivedParam (kp : KernelParam) : ParamInfo :=
  { value := kp.default, min := derivedMin kp, max := derivedMax kp
    vary := false, description := kp.description }

/-- The implicit `scale` entry added when the model does not declare it. -/
def implicitScale : ParamInfo :=
  { value := 1, min := XFloat.num 0, max := XFloat.posInf, vary := false
    description := "Scale factor for the model intensity" }

/-- The implicit `background` entry added when the model does not declare it. -/
def implicitBackground : ParamInfo :=
  { value := 0, min := XFloat.num 0, max := XFloat.posInf, vary := false
    description := "Constant background level" }

/-- The registry built by a successful `set_model`: the loop
`for param in kernel_parameters: self.params[param.name] = {...}`
followed by the two conditional implicit entries. -/
def buildParams (info : ModelInfo) : Params :=
  let base := info.kernel_parameters.foldl
    (fun ps kp => insertReplace ps kp.name (derivedParam kp)) []
  let withScale :=
    if containsParam base "scale" then base
    else base ++ [("scale", implicitScale)]
  if containsParam withScale "background" then withScale
  else withScale ++ [("background", implicitBackground)]

/-- `SANSFitter.set_model` (source lines 95–146).  The call to the
external loader `load_model` is the first statement inside the `try`
block; its outcome is passed in as `loadResult`.  On a loader failure
the `except` clause re-raises a `ValueError` before any attribute of
`self` has been assigned.  On success the registry is rebuilt from the
declared parameters.  Clearing the two structure-factor fields on
success is the spec-modelled model-switch behaviour (spec section 4.2:
selecting a new form-factor model implicitly detaches any structure
factor; exercised by `test_set_model_resets_structure_factor`). -/
def set_model (st : FitterState) (model_name : String)
    (loadResult : Except String ModelInfo) :
    FitterState × Except String Unit :=
  match loadResult with
  | .error e =>
      (st, .error ("Failed to load model " ++ model_name ++ ": " ++ e))
  | .ok info =>
      ({ st with
          kernel := some info
          model_name := some model_name
          params := buildParams info
          structureFactor := none
          radiusEffectiveMode := none }, .ok ())

/-! ### Fit orchestration -/

/-- Structured model of the `ValueError`s raised on the `fit` path. -/
inductive FitError where
  | missingData : FitError
  | missingModel : FitError
  | scipyMissing : FitError
  | unknownEngine : String → FitError
  | unknownMethod : String → FitError
deriving DecidableEq

/-- Tagged model of the formatted display strings a fit result carries.
Each constructor records which string template the source chose and the
numeric payloads; rendering of floats to decimal text is abstracted. -/
inductive FormattedVal where
  | bumpsFmt : ℚ → ℚ → FormattedVal
  | plain : ℚ → FormattedVal
  | withErr : ℚ → ℚ → FormattedVal
  | fixedTag : ℚ → FormattedVal
deriving DecidableEq

/-- One entry of `fit_result['parameters']`. -/
structure ResEntry where
  value : ℚ
  stderr : ℚ
  formatted : FormattedVal
deriving DecidableEq

/-- The `fit_result` dictionary returned by a successful fit (the
`problem` / raw backend `result` members, used only for plotting, are
not modelled). -/
structure FitResultRec where
  engine : String
  method : String
  chisq : ℚ
  parameters : List (String × ResEntry)
deriving DecidableEq

/-- The names of the varying parameters, in registry order: the list
comprehension `[name for name, info in self.params.items() if info['vary']]`
and equally the labels `problem.labels()` of the bumps fit problem built
from exactly those parameters. -/
def varyingNames (ps : Params) : List String :=
  (ps.filter (fun e => e.2.vary)).map Prod.fst

/-- Python truthiness of `method or default` for an optional string
argument: `None` and the empty string both select the default. -/
def strOrDefault (m : Option String) (d : String) : String :=
  match m with
  | none => d
  | some s => if s = "" then d else s

/-- The `for i, name in enumerate(names)` loop that builds an ordered
result mapping, reading the backend vectors at index `i` (starting at
`i0`). -/
def mapIdxFrom (g : ℕ → String → ResEntry) : List String → ℕ → List (String × ResEntry)
  | [], _ => []
  | n :: rest, i => (n, g i n) :: mapIdxFrom g rest (i + 1)

/-- The write-back loop over the varying names: at step `i` for name
`n`, set `self.params[n]['value']` to `x i`.  `guarded` models the
`if k in self.params` test of the bumps path (always true there, since
the labels are registry keys); the lmfit path assigns unguarded. -/
def writeBackFrom (x : ℕ → ℚ) (guarded : Bool) : Params → List String → ℕ → Params
  | ps, [], _ => ps
  | ps, n :: rest, i =>
      let ps' := if guarded && !containsParam ps n then ps else setValue ps n (x i)
      writeBackFrom x guarded ps' rest (i + 1)

/-- Output of the external bumps backend for one `bumps_fit` call:
`result.x`, `result.dx` (read at indices `0..len(labels)-1`) and the
value of `problem.chisq()` after the fit. -/
structure BumpsResult where
  x : ℕ → ℚ
  dx : ℕ → ℚ
  chisqFinal : ℚ

/-- Outputs of the scipy backends for one `_fit_lmfit` call, one field
group per method.  A covariance that the backend did not produce
(`cov_x is None` from `leastsq`) and a singular `JᵗJ` whose inversion
raised are both `none`. -/
structure LmResult where
  leastsqX : ℕ → ℚ
  leastsqCov : Option (ℕ → ℚ)
  lsqX : ℕ → ℚ
  lsqInvDiag : Option (ℕ → ℚ)
  lsqFun : List ℚ
  deX : ℕ → ℚ
  deFun : ℚ

/-- The model calculator `DirectModel(self.data, self.kernel)`: an
opaque callable from a full parameter-name→value mapping to predicted
intensities. -/
abbrev Calculator := List (String × ℚ) → List ℚ

/-- The full parameter dictionary the residual closure builds: every
registry value, then the varying entries overwritten from the trial
vector `x`. -/
def parDict (ps : Params) (names : List String) (x : ℕ → ℚ) : List (String × ℚ) :=
  let base := ps.map (fun e => (e.1, e.2.value))
  (List.range names.length).foldl
    (fun d i =>
      d.map (fun e => if e.1 = names.getD i "" then (e.1, x i) else e))
    base

/-- The weighted residual `(self.data.y - I_calc) / self.data.dy`. -/
def residual (calcF : Calculator) (d : DataSet) (ps : Params)
    (names : List String) (x : ℕ → ℚ) : List ℚ :=
  let icalc := calcF (parDict ps names x)
  (d.y.zip (icalc.zip d.dy)).map (fun t => (t.1 - t.2.1) / t.2.2)

/-- Sum of squares of a residual vector. -/
def sumSq (l : List ℚ) : ℚ :=
  (l.map (fun r => r * r)).foldl (· + ·) 0

/-- `SANSFitter._fit_bumps` (source lines 227–281): builds the result
mapping by zipping `problem.labels()` with `result.x` and `result.dx`,
formatting with `format_uncertainty`, and writes each fitted value back
into the registry (guarded by `if k in self.params`).  Fixed parameters
are not added to the result mapping. -/
def fit_bumps (st : FitterState) (method : String) (b : BumpsResult) :
    FitterState × FitResultRec :=
  let labels := varyingNames st.params
  let resParams := mapIdxFrom
    (fun i _ => { value := b.x i, stderr := b.dx i
                  formatted := FormattedVal.bumpsFmt (b.x i) (b.dx i) }) labels 0
  let ps' := writeBackFrom b.x true st.params labels 0
  ({ st with params := ps' },
   { engine := "bumps", method := method, chisq := b.chisqFinal
     parameters := resParams })

/-- The result-assembly tail of `_fit_lmfit` (source lines 358–395):
the varying parameters enter the result mapping first (with
`v ± e`-style formatting when the error is positive, bare value
otherwise) and are written back into the registry; then every parameter
not in `param_names` is appended with its held value, stderr `0.0` and
the `"(fixed)"` annotation. -/
def lmfitAssemble (st : FitterState) (method : String)
    (fitted : ℕ → ℚ) (errs : ℕ → ℚ) (chisq : ℚ) :
    FitterState × Except FitError FitResultRec :=
  let names := varyingNames st.params
  let varyingEntries := mapIdxFrom
    (fun i _ => { value := fitted i, stderr := errs i
                  formatted := if 0 < errs i then FormattedVal.withErr (fitted i) (errs i)
                               else FormattedVal.plain (fitted i) }) names 0
  let ps' := writeBackFrom fitted false st.params names 0
  let fixedEntries := (st.params.filter (fun e => !names.contains e.1)).map
    (fun e => (e.1, { value := e.2.value, stderr := 0
                      formatted := FormattedVal.fixedTag e.2.value : ResEntry }))
  ({ st with params := ps' },
   .ok { engine := "lmfit", method := method, chisq := chisq
         parameters := varyingEntries ++ fixedEntries })

/-- `SANSFitter._fit_lmfit` (source lines 283–395).  The three method
branches compute `(fitted_params, param_errors, chisq)` and fall into
the shared assembly; an unknown method raises before any mutation. -/
def fit_lmfit (st : FitterState) (d : DataSet) (method : String)
    (lr : LmResult) (calcF : Calculator) :
    FitterState × Except FitError FitResultRec :=
  let names := varyingNames st.params
  if method = "leastsq" then
    let errs : ℕ → ℚ :=
      match lr.leastsqCov with
      | some diag => fun i => Rat.sqrt (diag i)
      | none => fun _ => 0
    let chisq := sumSq (residual calcF d st.params names lr.leastsqX)
    lmfitAssemble st method lr.leastsqX errs chisq
  else if method = "least_squares" then
    let errs : ℕ → ℚ :=
      match lr.lsqInvDiag with
      | some diag => fun i => Rat.sqrt (diag i)
      | none => fun _ => 0
    lmfitAssemble st method lr.lsqX errs (sumSq lr.lsqFun)
  else if method = "differential_evolution" then
    lmfitAssemble st method lr.deX (fun _ => 0) lr.deFun
  else
    (st, .error (.unknownMethod method))

/-- `SANSFitter.fit` (source lines 195–225): precondition checks, then
dispatch to the selected engine with the defaulted method name.  The
returned pair is (state after the call, outcome); every error path
returns the state untouched because the source raises before any
mutation. -/
def fit (st : FitterState) (engine : String) (method : Option String)
    (lmfitAvailable : Bool) (b : BumpsResult) (lr : LmResult)
    (calcF : Calculator) : FitterState × Except FitError FitResultRec :=
  match st.data with
  | none => (st, .error .missingData)
  | some d =>
    match st.kernel with
    | none => (st, .error .missingModel)
    | some _ =>
      if engine = "bumps" then
        let r := fit_bumps st (strOrDefault method "amoeba") b
        (r.1, .ok r.2)
      else if engine = "lmfit" then
        if lmfitAvailable then
          fit_lmfit st d (strOrDefault method "leastsq") lr calcF
        else (st, .error .scipyMissing)
      else (st, .error (.unknownEngine engine))

/-! ### Structure-factor composition (modelled from the spec) -/

/-- Structured model of the `ValueError`s raised by the structure-factor
operations (spec section 4.2; messages asserted by the tests in
`TestStructureFactorSetup` and `TestStructureFactorRemoval`). -/
inductive SFError where
  | noFormFactor : SFError
  | unsupportedKind : String → SFError
  | invalidMode : String → SFError
  | noStructureFactor : SFError
deriving DecidableEq

/-- Modelled from the spec: the four supported structure-factor kinds
(spec section 4.2); the implementation of the structure-factor feature
is absent from `src` (only its tests and examples are present). -/
def supportedSFKinds : List String :=
  ["hardsphere", "squarewell", "stickyhardsphere", "hayter_msa"]

/-- Modelled from the spec: the parameter set each structure-factor kind
declares — always `volfraction` and `radius_effective`, plus `charge`
for `hayter_msa` (spec section 4.2). -/
def sfParamNames (kind : String) : List String :=
  if kind = "hayter_msa" then ["volfraction", "radius_effective", "charge"]
  else ["volfraction", "radius_effective"]

/-- Modelled from the spec: the registry entry merged for one
structure-factor parameter.  The spec fixes `vary = false` on merge but
does not fix the library default values or bounds; placeholder values
stand in for the sasmodels library defaults and no claim depends on
them. -/
def sfDefaultParam (n : String) : ParamInfo :=
  { value := if n = "volfraction" then 1 else if n = "charge" then 19 else 50
    min := XFloat.num 0, max := XFloat.posInf, vary := false
    description := "Structure factor parameter" }

/-- Sync of the derived parameter: set `radius_effective.value` to `v`
without touching any other field. -/
def syncRadiusEffective (ps : Params) (v : ℚ) : Params :=
  mapAt ps "radius_effective" (fun p => { p with value := v })

/-- Modelled from the spec: `SANSFitter.set_structure_factor`
(the implementation is absent from `src`; behaviour per spec section
4.2 and the tests in `TestStructureFactorSetup` /
`TestStructureFactorLinkRadius`).  Precondition checks in the order the
tests observe them; on success the structure-factor parameters are
merged, and in `link_radius` mode `radius_effective` is set to the
current `radius` value with `vary = false`. -/
def set_structure_factor (st : FitterState) (kind : String)
    (mode : String) : Except SFError FitterState :=
  if st.kernel.isNone then .error .noFormFactor
  else if !supportedSFKinds.contains kind then .error (.unsupportedKind kind)
  else if !(mode = "unconstrained" || mode = "link_radius") then
    .error (.invalidMode mode)
  else
    let merged := (sfParamNames kind).foldl
      (fun ps n => insertReplace ps n (sfDefaultParam n)) st.params
    let ps' :=
      if mode = "link_radius" then
        match lookupParam merged "radius" with
        | some pr =>
            mapAt (syncRadiusEffective merged pr.value) "radius_effective"
              (fun p => { p with vary := false })
        | none => merged
      else merged
    .ok { st with params := ps'
                  structureFactor := some kind
                  radiusEffectiveMode := some mode }

/-- Modelled from the spec: `SANSFitter.remove_structure_factor`
(absent from `src`; spec section 4.2 `detach` and
`TestStructureFactorRemoval`).  Removes every parameter of the merged
structure-factor set and clears the kind and link mode; all other
parameters survive untouched. -/
def remove_structure_factor (st : FitterState) : Except SFError FitterState :=
  match st.structureFactor with
  | none => .error .noStructureFactor
  | some kind =>
      .ok { st with
              params := st.params.filter (fun e => !(sfParamNames kind).contains e.1)
              structureFactor := none
              radiusEffectiveMode := none }

/-- Modelled from the spec: the link propagation inside the single
update entry point (spec section 4.2: whenever `radius` is updated via
the registry update while a `link_radius` binding is active,
`radius_effective.value` is recomputed to the new `radius.value` in the
same call).  The `src` body of `set_param` contains no such hook; this
wraps the source-faithful `set_param` with the spec-modelled side
effect. -/
def set_param_sf (st : FitterState) (name : String) (value : Option ℚ)
    (min : Option XFloat) (max : Option XFloat) (vary : Option Bool) :
    Except NotFoundError FitterState :=
  match set_param st.params name value min max vary with
  | .error e => .error e
  | .ok ps =>
      let ps' :=
        if st.radiusEffectiveMode = some "link_radius" ∧ name = "radius" then
          match lookupParam ps "radius" with
          | some pr => syncRadiusEffective ps pr.value
          | none => ps
        else ps
      .ok { st with params := ps' }

/-- `get_structure_factor`, the active-kind accessor the tests use. -/
def get_structure_factor (st : FitterState) : Option String :=
  st.structureFactor


/-! ### Concrete fixtures used to evaluate the operations -/

/-- Value of a fallible operation when it succeeded, with a fallback. -/
def okOr {ε α : Type} (r : Except ε α) (d : α) : α :=
  match r with
  | .ok a => a
  | .error _ => d

/-- A tiny concrete dataset. -/
def cData : DataSet := ⟨[1], [2], [1]⟩

/-- A concrete two-parameter model in the shape `set_model` consumes. -/
def cModel : ModelInfo :=
  { kernel_parameters :=
      [⟨"radius", 20, XFloat.num 1, XFloat.num 1000, "cylinder radius"⟩,
       ⟨"sld", 2, XFloat.num (-10), XFloat.num 10, "scattering length density"⟩] }

/-- The fitter after a successful `set_model`. -/
def cState0 : FitterState := (set_model initState "sphere" (.ok cModel)).1

/-- The fitter after `set_model` and `load_data`. -/
def cStateData : FitterState := { cState0 with data := some cData }

/-- As `cStateData`, with `radius` set to vary. -/
def cStateV : FitterState :=
  { cStateData with
      params := okOr (set_param cStateData.params "radius" none none none (some true)) [] }

/-- The fitter after attaching `hardsphere` in `link_radius` mode. -/
def cStateSF : FitterState :=
  okOr (set_structure_factor cState0 "hardsphere" "link_radius") initState

/-- The fitter after attaching `hardsphere` unconstrained and then editing
`radius` to 77. -/
def cStateSFe : FitterState :=
  let s1 := okOr (set_structure_factor cState0 "hardsphere" "unconstrained") initState
  { s1 with params := okOr (set_param s1.params "radius" (some 77) none none none) [] }

/-- A registry on which `set_param` was given crossed bounds. -/
def cBroken : Params :=
  okOr (set_param cState0.params "radius" none (some (XFloat.num 50))
    (some (XFloat.num 10)) none) []

/-- A concrete bumps backend outcome. -/
def cB : BumpsResult := ⟨fun _ => 25, fun _ => 2, 1⟩

/-- A concrete scipy backend outcome with no covariance anywhere. -/
def cLm : LmResult := ⟨fun _ => 7, none, fun _ => 8, none, [], fun _ => 9, 3⟩

/-- A trivial calculator. -/
def cCalc : Calculator := fun _ => []

/-- The fitter after removing the structure factor from `cStateSFe`. -/
def cStateRm : FitterState := okOr (remove_structure_factor cStateSFe) initState

/-- The parameter mapping of a fit outcome (empty when it errored). -/
def resParamsOf (o : Except FitError FitResultRec) : List (String × ResEntry) :=
  match o with
  | .ok r => r.parameters
  | .error _ => []

/-- The fitted vector each least-squares method reads from its backend:
`leastsq` uses `result[0]`, `least_squares` and `differential_evolution`
use `result.x`. -/
def lmFitted (meth : String) (lr : LmResult) : ℕ → ℚ :=
  if meth = "leastsq" then lr.leastsqX
  else if meth = "least_squares" then lr.lsqX
  else lr.deX

/-! ### Lemmas about the mapping operations -/

theorem lookupParam_nil {α : Type} (n : String) :
    lookupParam ([] : List (String × α)) n = none := rfl

theorem lookupParam_cons {α : Type} (e : String × α) (rest : List (String × α)) (n : String) :
    lookupParam (e :: rest) n = if e.1 = n then some e.2 else lookupParam rest n := rfl

theorem mapAt_nil {α : Type} (n : String) (f : α → α) :
    mapAt ([] : List (String × α)) n f = [] := rfl

theorem mapAt_cons {α : Type} (e : String × α) (rest : List (String × α)) (n : String) (f : α → α) :
    mapAt (e :: rest) n f = (if e.1 = n then (e.1, f e.2) else e) :: mapAt rest n f := by
  by_cases h : e.1 = n <;> simp [mapAt, h]

theorem insertReplace_nil {α : Type} (n : String) (v : α) :
    insertReplace ([] : List (String × α)) n v = [(n, v)] := rfl

theorem insertReplace_cons {α : Type} (e : String × α) (rest : List (String × α)) (n : String) (v : α) :
    insertReplace (e :: rest) n v =
      if e.1 = n then (n, v) :: rest else e :: insertReplace rest n v := rfl

theorem lookupParam_mapAt_self {α : Type} (ps : List (String × α)) (n : String) (f : α → α) :
    lookupParam (mapAt ps n f) n = (lookupParam ps n).map f := by
  induction ps with
  | nil => rfl
  | cons e rest ih =>
      rw [mapAt_cons]
      by_cases h1 : e.1 = n
      · rw [if_pos h1]
        simp only [lookupParam_cons, if_pos h1, Option.map_some']
      · rw [if_neg h1]
        simp only [lookupParam_cons, if_neg h1, ih]

theorem lookupParam_mapAt_ne {α : Type} (ps : List (String × α)) {n m : String} (f : α → α)
    (h : m ≠ n) : lookupParam (mapAt ps n f) m = lookupParam ps m := by
  induction ps with
  | nil => rfl
  | cons e rest ih =>
      rw [mapAt_cons]
      by_cases h1 : e.1 = n
      · have h2 : ¬ e.1 = m := fun hh => h (hh.symm.trans h1)
        rw [if_pos h1]
        simp only [lookupParam_cons, if_neg h2, ih]
      · rw [if_neg h1]
        by_cases h2 : e.1 = m
        · simp only [lookupParam_cons, if_pos h2]
        · simp only [lookupParam_cons, if_neg h2, ih]

theorem lookupParam_insertReplace_self {α : Type} (ps : List (String × α)) (n : String) (v : α) :
    lookupParam (insertReplace ps n v) n = some v := by
  induction ps with
  | nil => simp [insertReplace_nil, lookupParam_cons]
  | cons e rest ih =>
      rw [insertReplace_cons]
      by_cases h1 : e.1 = n
      · rw [if_pos h1]
        simp [lookupParam_cons]
      · rw [if_neg h1]
        simp only [lookupParam_cons, if_neg h1, ih]

theorem lookupParam_insertReplace_ne {α : Type} (ps : List (String × α)) {n m : String} (v : α)
    (h : m ≠ n) : lookupParam (insertReplace ps n v) m = lookupParam ps m := by
  induction ps with
  | nil =>
      rw [insertReplace_nil, lookupParam_cons]
      simp only [lookupParam_nil]
      exact if_neg (fun hh => h hh.symm)
  | cons e rest ih =>
      rw [insertReplace_cons]
      by_cases h1 : e.1 = n
      · have h2 : ¬ e.1 = m := fun hh => h (hh.symm.trans h1)
        rw [if_pos h1]
        simp only [lookupParam_cons, if_neg (fun hh => h (Eq.symm hh)), if_neg h2]
      · rw [if_neg h1]
        by_cases h2 : e.1 = m
        · simp only [lookupParam_cons, if_pos h2]
        · simp only [lookupParam_cons, if_neg h2, ih]

theorem lookupParam_append_left {α : Type} {ps qs : List (String × α)} {m : String} {r : α}
    (h : lookupParam ps m = some r) : lookupParam (ps ++ qs) m = some r := by
  induction ps with
  | nil => rw [lookupParam_nil] at h; exact absurd h (by simp)
  | cons e rest ih =>
      rw [lookupParam_cons] at h
      rw [List.cons_append, lookupParam_cons]
      by_cases h1 : e.1 = m
      · rw [if_pos h1] at h ⊢; exact h
      · rw [if_neg h1] at h ⊢; exact ih h

theorem lookupParam_append_right {α : Type} {ps qs : List (String × α)} {m : String}
    (h : lookupParam ps m = none) : lookupParam (ps ++ qs) m = lookupParam qs m := by
  induction ps with
  | nil => rfl
  | cons e rest ih =>
      rw [lookupParam_cons] at h
      rw [List.cons_append, lookupParam_cons]
      by_cases h1 : e.1 = m
      · rw [if_pos h1] at h; exact absurd h (by simp)
      · rw [if_neg h1] at h ⊢; exact ih h

theorem lookupParam_filterKey {α : Type} (ps : List (String × α)) (q : String → Bool)
    (m : String) :
    lookupParam (ps.filter (fun e => q e.1)) m =
      if q m then lookupParam ps m else none := by
  induction ps with
  | nil => rw [List.filter_nil, lookupParam_nil]; split <;> rfl
  | cons e rest ih =>
      rw [List.filter_cons]
      by_cases h1 : e.1 = m
      · by_cases h2 : q m
        · have hq : q e.1 = true := by rw [h1]; exact h2
          rw [if_pos (by simp [hq]), lookupParam_cons, if_pos h1,
            if_pos h2, lookupParam_cons, if_pos h1]
        · have hq : q e.1 = false := by rw [h1]; simpa using h2
          rw [if_neg (by simp [hq]), ih, if_neg (by simpa using h2),
            if_neg (by simpa using h2)]
      · by_cases h2 : q e.1
        · rw [if_pos (by simp [h2]), lookupParam_cons, if_neg h1, ih]
          by_cases h3 : q m
          · rw [if_pos h3, if_pos h3, lookupParam_cons, if_neg h1]
          · rw [if_neg h3, if_neg h3]
        · have hq : q e.1 = false := by simpa using h2
          rw [if_neg (by simp [hq]), ih]
          by_cases h3 : q m
          · rw [if_pos h3, if_pos h3, lookupParam_cons, if_neg h1]
          · rw [if_neg h3, if_neg h3]

theorem lookupParam_mapSnd {α β : Type} (ps : List (String × α)) (h : α → β) (m : String) :
    lookupParam (ps.map (fun e => (e.1, h e.2))) m = (lookupParam ps m).map h := by
  induction ps with
  | nil => rfl
  | cons e rest ih =>
      rw [List.map_cons, lookupParam_cons, lookupParam_cons]
      by_cases h1 : e.1 = m
      · rw [if_pos h1, if_pos h1, Option.map_some']
      · rw [if_neg h1, if_neg h1, ih]

theorem paramNames_mapAt {α : Type} (ps : List (String × α)) (n : String) (f : α → α) :
    paramNames (mapAt ps n f) = paramNames ps := by
  induction ps with
  | nil => rfl
  | cons e rest ih =>
      rw [mapAt_cons]
      by_cases h1 : e.1 = n
      · rw [if_pos h1]
        simp only [paramNames, List.map_cons] at ih ⊢
        rw [ih]
      · rw [if_neg h1]
        simp only [paramNames, List.map_cons] at ih ⊢
        rw [ih]

theorem mem_of_lookupParam {α : Type} {ps : List (String × α)} {n : String} {p : α}
    (h : lookupParam ps n = some p) : (n, p) ∈ ps := by
  induction ps with
  | nil => rw [lookupParam_nil] at h; exact absurd h (by simp)
  | cons e rest ih =>
      rw [lookupParam_cons] at h
      by_cases h1 : e.1 = n
      · rw [if_pos h1] at h
        have he : e = (n, p) := by
          obtain ⟨a, b⟩ := e
          simp only at h1
          simp only [Option.some.injEq] at h
          simp [h1, h]
        rw [he]
        exact List.mem_cons_self _ _
      · rw [if_neg h1] at h
        exact List.mem_cons_of_mem _ (ih h)

theorem lookupParam_of_mem_nodup {α : Type} {ps : List (String × α)} {n : String} {p : α}
    (hnd : (paramNames ps).Nodup) (h : (n, p) ∈ ps) : lookupParam ps n = some p := by
  induction ps with
  | nil => simp at h
  | cons e rest ih =>
      simp only [paramNames, List.map_cons, List.nodup_cons] at hnd
      rcases List.mem_cons.mp h with h0 | h0
      · rw [← h0, lookupParam_cons, if_pos rfl]
      · have hne : ¬ e.1 = n := by
          intro hh
          exact hnd.1 (hh ▸ (List.mem_map.mpr ⟨(n, p), h0, rfl⟩))
        rw [lookupParam_cons, if_neg hne]
        exact ih hnd.2 h0

theorem containsParam_iff {α : Type} {ps : List (String × α)} {n : String} :
    containsParam ps n = true ↔ ∃ p, lookupParam ps n = some p := by
  simp [containsParam, Option.isSome_iff_exists]

/-! ### Lemmas about varying names, merge folds, and the fit loops -/

theorem varyingNames_sublist (ps : Params) :
    List.Sublist (varyingNames ps) (paramNames ps) :=
  List.Sublist.map Prod.fst (List.filter_sublist ps)

theorem varyingNames_nodup {ps : Params} (h : (paramNames ps).Nodup) :
    (varyingNames ps).Nodup :=
  List.Nodup.sublist (varyingNames_sublist ps) h

theorem mem_varyingNames {ps : Params} {n : String} :
    n ∈ varyingNames ps ↔ ∃ p, (n, p) ∈ ps ∧ p.vary = true := by
  constructor
  · intro h
    obtain ⟨e, he, hen⟩ := List.mem_map.mp h
    obtain ⟨hmem, hv⟩ := List.mem_filter.mp he
    refine ⟨e.2, ?_, by simpa using hv⟩
    have : (e.1, e.2) = e := rfl
    rw [← hen, this]
    exact hmem
  · rintro ⟨p, hmem, hv⟩
    exact List.mem_map.mpr ⟨(n, p), List.mem_filter.mpr ⟨hmem, by simpa using hv⟩, rfl⟩

theorem lookup_isSome_of_mem {α : Type} {ps : List (String × α)} {n : String} {p : α}
    (h : (n, p) ∈ ps) : containsParam ps n = true := by
  induction ps with
  | nil => simp at h
  | cons e rest ih =>
      rcases List.mem_cons.mp h with h0 | h0
      · rw [← h0]
        simp [containsParam, lookupParam_cons]
      · by_cases h1 : e.1 = n
        · simp [containsParam, lookupParam_cons, h1]
        · simpa [containsParam, lookupParam_cons, h1] using ih h0

theorem contains_of_mem_varyingNames {ps : Params} {n : String}
    (h : n ∈ varyingNames ps) : containsParam ps n = true := by
  obtain ⟨p, hmem, _⟩ := mem_varyingNames.mp h
  exact lookup_isSome_of_mem hmem

theorem mem_varyingNames_of_lookup {ps : Params} {n : String} {p : ParamInfo}
    (hl : lookupParam ps n = some p) (hv : p.vary = true) : n ∈ varyingNames ps :=
  mem_varyingNames.mpr ⟨p, mem_of_lookupParam hl, hv⟩

theorem not_mem_varyingNames_of_fixed {ps : Params} {n : String} {p : ParamInfo}
    (hnd : (paramNames ps).Nodup) (hl : lookupParam ps n = some p)
    (hv : p.vary = false) : n ∉ varyingNames ps := by
  intro hmem
  obtain ⟨q, hq, hqv⟩ := mem_varyingNames.mp hmem
  have hlq := lookupParam_of_mem_nodup hnd hq
  rw [hl] at hlq
  have : p = q := by injection hlq
  rw [← this] at hqv
  rw [hv] at hqv
  exact Bool.false_ne_true hqv

theorem lookup_foldlIns_notmem {ι α : Type} (key : ι → String) (vf : ι → α)
    (l : List ι) (acc : List (String × α)) (n : String)
    (h : ∀ a ∈ l, key a ≠ n) :
    lookupParam (l.foldl (fun ps a => insertReplace ps (key a) (vf a)) acc) n =
      lookupParam acc n := by
  induction l generalizing acc with
  | nil => rfl
  | cons a rest ih =>
      rw [List.foldl_cons]
      rw [ih _ (fun b hb => h b (List.mem_cons_of_mem _ hb))]
      exact lookupParam_insertReplace_ne acc (vf a)
        (fun hh => h a (List.mem_cons_self _ _) hh.symm)

theorem lookup_foldlIns_mem {ι α : Type} (key : ι → String) (vf : ι → α)
    {l : List ι} {a : ι} (acc : List (String × α))
    (hnd : (l.map key).Nodup) (ha : a ∈ l) :
    lookupParam (l.foldl (fun ps b => insertReplace ps (key b) (vf b)) acc) (key a) =
      some (vf a) := by
  induction l generalizing acc with
  | nil => cases ha
  | cons b rest ih =>
      simp only [List.map_cons, List.nodup_cons] at hnd
      rw [List.foldl_cons]
      rcases List.mem_cons.mp ha with h0 | h0
      · subst h0
        have hrest : ∀ c ∈ rest, key c ≠ key a := by
          intro c hc hcc
          exact hnd.1 (hcc ▸ List.mem_map.mpr ⟨c, hc, rfl⟩)
        rw [lookup_foldlIns_notmem key vf rest _ _ hrest]
        exact lookupParam_insertReplace_self acc (key a) (vf a)
      · exact ih _ hnd.2 h0

theorem mapIdxFrom_keys (g : ℕ → String → ResEntry) (names : List String) (i : ℕ) :
    paramNames (mapIdxFrom g names i) = names := by
  induction names generalizing i with
  | nil => rfl
  | cons m rest ih =>
      show m :: paramNames (mapIdxFrom g rest (i + 1)) = m :: rest
      rw [ih (i + 1)]

theorem lookup_mapIdxFrom_notmem {g : ℕ → String → ResEntry} {names : List String}
    {i : ℕ} {n : String} (h : n ∉ names) :
    lookupParam (mapIdxFrom g names i) n = none := by
  induction names generalizing i with
  | nil => rfl
  | cons m rest ih =>
      have hm : ¬ m = n := fun hh => h (hh ▸ List.mem_cons_self _ _)
      simp only [mapIdxFrom, lookupParam_cons, if_neg hm]
      exact ih (fun hh => h (List.mem_cons_of_mem _ hh))

theorem lookup_mapIdxFrom_get {g : ℕ → String → ResEntry} {names : List String}
    (hnd : names.Nodup) {j : ℕ} (hj : j < names.length) (i : ℕ) :
    lookupParam (mapIdxFrom g names i) (names.get ⟨j, hj⟩) =
      some (g (i + j) (names.get ⟨j, hj⟩)) := by
  induction names generalizing i j with
  | nil => exact absurd hj (by simp)
  | cons m rest ih =>
      simp only [List.nodup_cons] at hnd
      cases j with
      | zero =>
          show lookupParam ((m, g i m) :: mapIdxFrom g rest (i + 1)) m = some (g (i + 0) m)
          simp [lookupParam_cons]
      | succ jj =>
          have hjj : jj < rest.length := Nat.lt_of_succ_lt_succ hj
          have hget : (m :: rest).get ⟨jj + 1, hj⟩ = rest.get ⟨jj, hjj⟩ := rfl
          have hmem : rest.get ⟨jj, hjj⟩ ∈ rest := List.get_mem _ _ _
          have hm : ¬ m = rest.get ⟨jj, hjj⟩ := fun hh => hnd.1 (hh ▸ hmem)
          rw [hget]
          simp only [mapIdxFrom, lookupParam_cons, if_neg hm]
          rw [ih hnd.2 hjj (i + 1)]
          have harith : i + 1 + jj = i + (jj + 1) := by omega
          rw [harith]

theorem writeBackFrom_nil (x : ℕ → ℚ) (g : Bool) (ps : Params) (i : ℕ) :
    writeBackFrom x g ps [] i = ps := rfl

theorem writeBackFrom_cons (x : ℕ → ℚ) (g : Bool) (ps : Params) (n : String)
    (rest : List String) (i : ℕ) :
    writeBackFrom x g ps (n :: rest) i =
      writeBackFrom x g (if g && !containsParam ps n then ps else setValue ps n (x i))
        rest (i + 1) := rfl

theorem lookup_writeBackFrom_notmem {x : ℕ → ℚ} {g : Bool} {ps : Params}
    {names : List String} {i : ℕ} {n : String} (h : n ∉ names) :
    lookupParam (writeBackFrom x g ps names i) n = lookupParam ps n := by
  induction names generalizing ps i with
  | nil => rfl
  | cons m rest ih =>
      have hm : n ≠ m := fun hh => h (hh ▸ List.mem_cons_self _ _)
      rw [writeBackFrom_cons]
      rw [ih (fun hh => h (List.mem_cons_of_mem _ hh))]
      cases hcond : (g && !containsParam ps m)
      · rw [if_neg (by simp [hcond])]
        exact lookupParam_mapAt_ne ps _ hm
      · rw [if_pos (by simp [hcond])]

theorem lookup_writeBackFrom_get {x : ℕ → ℚ} {g : Bool} {ps : Params}
    {names : List String} (hnd : names.Nodup) {j : ℕ} (hj : j < names.length) (i : ℕ) :
    lookupParam (writeBackFrom x g ps names i) (names.get ⟨j, hj⟩) =
      (lookupParam ps (names.get ⟨j, hj⟩)).map
        (fun p => { p with value := x (i + j) }) := by
  induction names generalizing ps i j with
  | nil => exact absurd hj (by simp)
  | cons m rest ih =>
      simp only [List.nodup_cons] at hnd
      rw [writeBackFrom_cons]
      cases j with
      | zero =>
          have hget : (m :: rest).get ⟨0, hj⟩ = m := rfl
          rw [hget, lookup_writeBackFrom_notmem hnd.1, Nat.add_zero]
          cases hcond : (g && !containsParam ps m)
          · rw [if_neg (by simp [hcond])]
            exact lookupParam_mapAt_self ps m _
          · rw [if_pos (by simp [hcond])]
            have hc : containsParam ps m = false := by
              cases hcg : containsParam ps m
              · rfl
              · rw [hcg] at hcond
                cases g <;> simp at hcond
            have hnone : lookupParam ps m = none := by
              cases hl : lookupParam ps m with
              | none => rfl
              | some p =>
                  have hcc : containsParam ps m = true := by simp [containsParam, hl]
                  rw [hcc] at hc
                  cases hc
            rw [hnone]
            rfl
      | succ jj =>
          have hjj : jj < rest.length := Nat.lt_of_succ_lt_succ hj
          have hget : (m :: rest).get ⟨jj + 1, hj⟩ = rest.get ⟨jj, hjj⟩ := rfl
          have hmem : rest.get ⟨jj, hjj⟩ ∈ rest := List.get_mem _ _ _
          have hm : rest.get ⟨jj, hjj⟩ ≠ m := fun hh => hnd.1 (hh ▸ hmem)
          rw [hget, ih hnd.2 hjj (i + 1)]
          have harith : i + 1 + jj = i + (jj + 1) := by
            rw [Nat.add_assoc, Nat.add_comm 1 jj]
          rw [harith]
          congr 1
          cases hcond : (g && !containsParam ps m)
          · rw [if_neg (by simp [hcond])]
            exact lookupParam_mapAt_ne ps _ hm
          · rw [if_pos (by simp [hcond])]

/-! ### Claim theorems -/

/-- C10: for every fitter state and every model name for which the model
loader raises, `set_model` raises a `ValueError` and leaves the fitter's
previously loaded kernel, model name, parameter registry and data
unchanged — the whole state is returned exactly as it was, because the
loader call is the first statement of the `try` block. -/
theorem C10_theorem (st : FitterState) (mname : String) (e : String) :
    (set_model st mname (.error e)).1 = st ∧
    (set_model st mname (.error e)).2 =
      .error ("Failed to load model " ++ mname ++ ": " ++ e) :=
  ⟨rfl, rfl⟩

/-- Helper: the `lmfit` branch returns a result for each of its three
supported methods. -/
theorem fit_lmfit_ok (st : FitterState) (d : DataSet) (meth : String)
    (lr : LmResult) (calcF : Calculator)
    (hm : meth ∈ ["leastsq", "least_squares", "differential_evolution"]) :
    ∃ r, (fit_lmfit st d meth lr calcF).2 = .ok r := by
  cases hx : (fit_lmfit st d meth lr calcF).2 with
  | ok r => exact ⟨r, rfl⟩
  | error e =>
      exfalso
      simp only [List.mem_cons, List.not_mem_nil, or_false] at hm
      rcases hm with hm | hm | hm <;> subst hm <;>
        simp [fit_lmfit, lmfitAssemble] at hx

/-- C4: `fit` fails with Missing-Data when no dataset is bound, with
Missing-Model when a dataset is bound but no model is bound, with
Unknown-Engine when the engine is neither `bumps` nor `lmfit`, and in
the `lmfit` family with Unknown-Method when the (defaulted) method is
not one of the three supported variants; in every other case validation
passes and the call returns a result. -/
theorem C4_theorem (st : FitterState) (engine : String) (method : Option String)
    (b : BumpsResult) (lr : LmResult) (calcF : Calculator) :
    (st.data = none → (fit st engine method true b lr calcF).2 = .error .missingData) ∧
    (st.data ≠ none → st.kernel = none →
      (fit st engine method true b lr calcF).2 = .error .missingModel) ∧
    (st.data ≠ none → st.kernel ≠ none → engine ≠ "bumps" → engine ≠ "lmfit" →
      (fit st engine method true b lr calcF).2 = .error (.unknownEngine engine)) ∧
    (st.data ≠ none → st.kernel ≠ none → engine = "lmfit" →
      strOrDefault method "leastsq" ∉ ["leastsq", "least_squares", "differential_evolution"] →
      (fit st engine method true b lr calcF).2 =
        .error (.unknownMethod (strOrDefault method "leastsq"))) ∧
    (st.data ≠ none → st.kernel ≠ none → engine = "bumps" →
      ∃ r, (fit st engine method true b lr calcF).2 = .ok r) ∧
    (st.data ≠ none → st.kernel ≠ none → engine = "lmfit" →
      strOrDefault method "leastsq" ∈ ["leastsq", "least_squares", "differential_evolution"] →
      ∃ r, (fit st engine method true b lr calcF).2 = .ok r) := by
  refine ⟨?_, ?_, ?_, ?_, ?_, ?_⟩
  · intro hd
    simp [fit, hd]
  · intro hd hk
    obtain ⟨d, hd'⟩ := Option.ne_none_iff_exists'.mp hd
    simp [fit, hd', hk]
  · intro hd hk h1 h2
    obtain ⟨d, hd'⟩ := Option.ne_none_iff_exists'.mp hd
    obtain ⟨k, hk'⟩ := Option.ne_none_iff_exists'.mp hk
    simp [fit, hd', hk', h1, h2]
  · intro hd hk he hm
    obtain ⟨d, hd'⟩ := Option.ne_none_iff_exists'.mp hd
    obtain ⟨k, hk'⟩ := Option.ne_none_iff_exists'.mp hk
    simp only [List.mem_cons, List.mem_singleton, not_or] at hm
    obtain ⟨hm1, hm2, hm3⟩ := hm
    have hm3' : strOrDefault method "leastsq" ≠ "differential_evolution" := by
      simpa using hm3
    simp [fit, hd', hk', he, fit_lmfit, hm1, hm2, hm3']
  · intro hd hk he
    obtain ⟨d, hd'⟩ := Option.ne_none_iff_exists'.mp hd
    obtain ⟨k, hk'⟩ := Option.ne_none_iff_exists'.mp hk
    exact ⟨(fit_bumps st (strOrDefault method "amoeba") b).2, by simp [fit, hd', hk', he]⟩
  · intro hd hk he hm
    obtain ⟨d, hd'⟩ := Option.ne_none_iff_exists'.mp hd
    obtain ⟨k, hk'⟩ := Option.ne_none_iff_exists'.mp hk
    have hfit : (fit st engine method true b lr calcF).2 =
        (fit_lmfit st d (strOrDefault method "leastsq") lr calcF).2 := by
      simp [fit, hd', hk', he]
    rw [hfit]
    exact fit_lmfit_ok st d _ lr calcF hm

/-- C4 witness: with nothing loaded the concrete call reports the
Missing-Data error. -/
theorem C4_witness :
    initState.data = none ∧
    (fit initState "bumps" none true cB cLm cCalc).2 = .error .missingData :=
  ⟨rfl, (C4_theorem initState "bumps" none cB cLm cCalc).1 rfl⟩

/-- Helper for C3: the `lmfit` branch leaves the state untouched
whenever it reports an error (the only error it raises, the unknown
method, is raised before any assignment). -/
theorem fit_lmfit_error_state (st : FitterState) (d : DataSet) (meth : String)
    (lr : LmResult) (calcF : Calculator) {err : FitError}
    (h : (fit_lmfit st d meth lr calcF).2 = .error err) :
    (fit_lmfit st d meth lr calcF).1 = st := by
  by_cases h1 : meth = "leastsq"
  · simp [fit_lmfit, h1, lmfitAssemble] at h
  · by_cases h2 : meth = "least_squares"
    · simp [fit_lmfit, h1, h2, lmfitAssemble] at h
    · by_cases h3 : meth = "differential_evolution"
      · simp [fit_lmfit, h1, h2, h3, lmfitAssemble] at h
      · simp [fit_lmfit, h1, h2, h3]

/-- C3: whenever `fit` raises — missing data, missing model, unknown
engine, scipy missing, or unknown least-squares method — the state
(and in particular every parameter's value, bounds and vary flag) is
exactly as it was before the call. -/
theorem C3_theorem (st : FitterState) (engine : String) (method : Option String)
    (avail : Bool) (b : BumpsResult) (lr : LmResult) (calcF : Calculator)
    {err : FitError}
    (h : (fit st engine method avail b lr calcF).2 = .error err) :
    (fit st engine method avail b lr calcF).1 = st := by
  cases hd : st.data with
  | none => simp [fit, hd]
  | some d =>
    cases hk : st.kernel with
    | none => simp [fit, hk, hd]
    | some k =>
      by_cases he : engine = "bumps"
      · simp [fit, hd, hk, he] at h
      · by_cases he2 : engine = "lmfit"
        · cases avail with
          | false => simp [fit, hd, hk, he, he2]
          | true =>
              simp only [fit, hd, hk, if_neg he, if_pos he2, if_true] at h ⊢
              exact fit_lmfit_error_state st d _ lr calcF h
        · simp [fit, hd, hk, he, he2]

/-- C3 witness: a concrete failing call (unknown engine) returns the
state unchanged. -/
theorem C3_witness :
    (fit cStateData "neither" none true cB cLm cCalc).2 =
      .error (.unknownEngine "neither") ∧
    (fit cStateData "neither" none true cB cLm cCalc).1 = cStateData :=
  ⟨by decide,
    @C3_theorem cStateData "neither" none true cB cLm cCalc
      (.unknownEngine "neither") (by decide)⟩

/-- C9: `set_param` on an absent name fails with the Not-Found error
that carries the available parameter names and (being an error) leaves
everything untouched; on a present name every argument passed as `None`
leaves the corresponding field as it was, the given arguments replace
theirs, and no other parameter entry changes. -/
theorem C9_theorem (ps : Params) (name : String) (v : Option ℚ)
    (mn mx : Option XFloat) (vy : Option Bool) :
    (lookupParam ps name = none →
      set_param ps name v mn mx vy = .error ⟨name, paramNames ps⟩) ∧
    (∀ p, lookupParam ps name = some p →
      ∃ ps', set_param ps name v mn mx vy = .ok ps' ∧
        lookupParam ps' name =
          some ⟨v.getD p.value, mn.getD p.min, mx.getD p.max, vy.getD p.vary,
            p.description⟩ ∧
        ∀ n, n ≠ name → lookupParam ps' n = lookupParam ps n) := by
  constructor
  · intro h
    have hc : containsParam ps name = false := by
      simp [containsParam, h]
    simp [set_param, hc]
  · intro p hp
    have hc : containsParam ps name = true := by
      simp [containsParam, hp]
    refine ⟨mapAt ps name (fun q =>
        ⟨v.getD q.value, mn.getD q.min, mx.getD q.max, vy.getD q.vary, q.description⟩),
      by simp [set_param, hc], ?_, ?_⟩
    · rw [lookupParam_mapAt_self, hp]
      rfl
    · intro n hn
      exact lookupParam_mapAt_ne ps _ hn

/-- C9 witness: the concrete registry rejects an unknown name with the
error enumerating its parameters. -/
theorem C9_witness :
    lookupParam cState0.params "bogus" = none ∧
    set_param cState0.params "bogus" (some 1) none none none =
      .error ⟨"bogus", paramNames cState0.params⟩ :=
  ⟨by decide, (C9_theorem cState0.params "bogus" (some 1) none none none).1 (by decide)⟩

/-- Inversion of a merge fold: an entry found after the fold is either
one of the merged entries or was already found before. -/
theorem lookup_foldlIns_inv {ι α : Type} (key : ι → String) (vf : ι → α)
    {l : List ι} {acc : List (String × α)} {n : String} {p : α}
    (h : lookupParam (l.foldl (fun ps a => insertReplace ps (key a) (vf a)) acc) n = some p) :
    (∃ a ∈ l, key a = n ∧ p = vf a) ∨ lookupParam acc n = some p := by
  induction l generalizing acc with
  | nil => exact Or.inr h
  | cons a rest ih =>
      rw [List.foldl_cons] at h
      rcases ih h with hmem | hacc
      · obtain ⟨b, hb, hkey, hp⟩ := hmem
        exact Or.inl ⟨b, List.mem_cons_of_mem _ hb, hkey, hp⟩
      · by_cases hn : n = key a
        · rw [hn, lookupParam_insertReplace_self] at hacc
          injection hacc with hacc
          exact Or.inl ⟨a, List.mem_cons_self _ _, hn.symm, hacc.symm⟩
        · rw [lookupParam_insertReplace_ne acc (vf a) hn] at hacc
          exact Or.inr hacc

/-- Inversion of lookup over an append. -/
theorem lookup_append_inv {α : Type} {xs ys : List (String × α)} {n : String} {p : α}
    (h : lookupParam (xs ++ ys) n = some p) :
    lookupParam xs n = some p ∨
      (lookupParam xs n = none ∧ lookupParam ys n = some p) := by
  cases hx : lookupParam xs n with
  | some q =>
      left
      have hq := @lookupParam_append_left α xs ys n q hx
      rw [h] at hq
      exact hq.symm
  | none =>
      right
      refine ⟨rfl, ?_⟩
      rw [← @lookupParam_append_right α xs ys n hx]
      exact h

/-- Lookup in a one-entry mapping. -/
theorem lookup_singleton_inv {α : Type} {m n : String} {q p : α}
    (h : lookupParam [(m, q)] n = some p) : m = n ∧ p = q := by
  by_cases hm : m = n
  · refine ⟨hm, ?_⟩
    rw [lookupParam_cons, if_pos hm] at h
    injection h with hh
    exact hh.symm
  · rw [lookupParam_cons, if_neg hm, lookupParam_nil] at h
    cases h

/-- Lookup in the registry filtered by a name blacklist (the shape of
the structure-factor removal and of the fixed-parameter scan). -/
theorem lookup_filter_contains {α : Type} (ps : List (String × α))
    (bad : List String) (m : String) :
    lookupParam (ps.filter (fun e => !bad.contains e.1)) m =
      if bad.contains m then none else lookupParam ps m := by
  induction ps with
  | nil =>
      rw [List.filter_nil, lookupParam_nil]
      split <;> rfl
  | cons e rest ih =>
      rw [List.filter_cons]
      by_cases h1 : e.1 = m
      · by_cases hbm : bad.contains m = true
        · have hq : (!bad.contains e.1) = false := by rw [h1, hbm]; rfl
          rw [if_neg (by rw [hq]; exact Bool.false_ne_true), ih,
            if_pos hbm, if_pos hbm]
        · have hbm' : bad.contains m = false := by
            cases hh : bad.contains m
            · rfl
            · exact absurd hh hbm
          have hq : (!bad.contains e.1) = true := by rw [h1, hbm']; rfl
          rw [if_pos hq, lookupParam_cons, if_pos h1, if_neg hbm,
            lookupParam_cons, if_pos h1]
      · by_cases hbe : (!bad.contains e.1) = true
        · rw [if_pos hbe, lookupParam_cons, if_neg h1, ih]
          by_cases hbm : bad.contains m = true
          · rw [if_pos hbm, if_pos hbm]
          · rw [if_neg hbm, if_neg hbm, lookupParam_cons, if_neg h1]
        · rw [if_neg hbe, ih]
          by_cases hbm : bad.contains m = true
          · rw [if_pos hbm, if_pos hbm]
          · rw [if_neg hbm, if_neg hbm, lookupParam_cons, if_neg h1]

/-- Inversion of a `set_model` registry lookup: every entry is a derived
declared parameter or one of the two implicit entries. -/
theorem lookup_buildParams_inv {info : ModelInfo} {n : String} {p : ParamInfo}
    (h : lookupParam (buildParams info) n = some p) :
    (∃ kp ∈ info.kernel_parameters, kp.name = n ∧ p = derivedParam kp) ∨
    p = implicitScale ∨ p = implicitBackground := by
  have hdecl : ∀ {q : ParamInfo},
      lookupParam (info.kernel_parameters.foldl
        (fun ps kp => insertReplace ps kp.name (derivedParam kp)) []) n = some q →
      ∃ kp ∈ info.kernel_parameters, kp.name = n ∧ q = derivedParam kp := by
    intro q hq
    rcases lookup_foldlIns_inv KernelParam.name derivedParam hq with hm | habs
    · exact hm
    · cases habs
  have h' := h
  simp only [buildParams] at h'
  set b := info.kernel_parameters.foldl
    (fun ps kp => insertReplace ps kp.name (derivedParam kp)) [] with hb
  by_cases h1 : containsParam b "scale" = true
  · rw [if_pos h1] at h'
    by_cases h2 : containsParam b "background" = true
    · rw [if_pos h2] at h'
      exact Or.inl (hdecl h')
    · rw [if_neg h2] at h'
      rcases lookup_append_inv h' with hbb | hpair
      · exact Or.inl (hdecl hbb)
      · exact Or.inr (Or.inr (lookup_singleton_inv hpair.2).2)
  · rw [if_neg h1] at h'
    by_cases h2 : containsParam (b ++ [("scale", implicitScale)]) "background" = true
    · rw [if_pos h2] at h'
      rcases lookup_append_inv h' with hbb | hpair
      · exact Or.inl (hdecl hbb)
      · exact Or.inr (Or.inl (lookup_singleton_inv hpair.2).2)
    · rw [if_neg h2] at h'
      rcases lookup_append_inv h' with hbs | hpair
      · rcases lookup_append_inv hbs with hbb | hpair2
        · exact Or.inl (hdecl hbb)
        · exact Or.inr (Or.inl (lookup_singleton_inv hpair2.2).2)
      · exact Or.inr (Or.inr (lookup_singleton_inv hpair.2).2)

/-- C7 counterexample: on the registry built for a concrete model, a
`set_param` call with crossed bounds succeeds and leaves `radius` with
`min = 50 > 10 = max`, so the claimed invariant is not preserved by
every update. -/
theorem C7_counterexample :
    set_param cState0.params "radius" none (some (XFloat.num 50))
      (some (XFloat.num 10)) none = .ok cBroken ∧
    lookupParam cBroken "radius" =
      some ⟨20, XFloat.num 50, XFloat.num 10, false, "cylinder radius"⟩ ∧
    XFloat.le (XFloat.num 50) (XFloat.num 10) = false := by
  refine ⟨?_, by decide, by decide⟩
  decide

/-- C7 (amended): after `set_model` every registry entry satisfies
`min ≤ max` provided each declared parameter's derived bounds are
ordered (which the code does not check); the implicit `scale` and
`background` entries always satisfy it; and `set_param` preserves the
invariant when it is not given `min`/`max` arguments.  An explicit
`set_param` with `min > max` breaks the invariant (see the
counterexample): the code performs no validation. -/
theorem C7_theorem :
    (∀ info : ModelInfo,
      (∀ kp ∈ info.kernel_parameters,
        XFloat.le (derivedMin kp) (derivedMax kp) = true) →
      ∀ n p, lookupParam (buildParams info) n = some p →
        XFloat.le p.min p.max = true) ∧
    (∀ (ps : Params) (name : String) (v : Option ℚ) (vy : Option Bool)
        (ps' : Params),
      (∀ n p, lookupParam ps n = some p → XFloat.le p.min p.max = true) →
      set_param ps name v none none vy = .ok ps' →
      ∀ n p, lookupParam ps' n = some p → XFloat.le p.min p.max = true) := by
  constructor
  · intro info hinfo n p h
    rcases lookup_buildParams_inv h with ⟨kp, hkp, _, hp⟩ | hp | hp
    · rw [hp]
      exact hinfo kp hkp
    · rw [hp]
      rfl
    · rw [hp]
      rfl
  · intro ps name v vy ps' hinv hok n p hlp
    by_cases hc : containsParam ps name
    · simp only [set_param, hc, if_true, Except.ok.injEq] at hok
      rw [← hok] at hlp
      by_cases hn : n = name
      · rw [hn, lookupParam_mapAt_self] at hlp
        cases hq : lookupParam ps name with
        | none => rw [hq] at hlp; cases hlp
        | some q =>
            rw [hq] at hlp
            injection hlp with hlp
            rw [← hlp]
            exact hinv name q hq
      · rw [lookupParam_mapAt_ne ps _ hn] at hlp
        exact hinv n p hlp
    · simp [set_param, hc] at hok

/-- C7 witness: the concrete model has ordered derived bounds and the
theorem yields the invariant for its `radius` entry. -/
theorem C7_witness :
    (∀ kp ∈ cModel.kernel_parameters,
      XFloat.le (derivedMin kp) (derivedMax kp) = true) ∧
    XFloat.le (XFloat.num 1) (XFloat.num 1000) = true :=
  ⟨by decide,
    C7_theorem.1 cModel (by decide) "radius"
      ⟨20, XFloat.num 1, XFloat.num 1000, false, "cylinder radius"⟩ (by decide)⟩

/-- C2: while a `link_radius` binding is active, updating `radius`
through the single update entry point sets `radius_effective.value` to
the new radius value in the same call, and its vary flag stays false;
this holds for every assigned value. -/
theorem C2_theorem (st : FitterState) (v : ℚ) (pr pe : ParamInfo)
    (hmode : st.radiusEffectiveMode = some "link_radius")
    (hr : lookupParam st.params "radius" = some pr)
    (he : lookupParam st.params "radius_effective" = some pe)
    (hv : pe.vary = false) :
    ∃ st' pe', set_param_sf st "radius" (some v) none none none = .ok st' ∧
      lookupParam st'.params "radius_effective" = some pe' ∧
      pe'.value = v ∧ pe'.vary = false ∧
      (lookupParam st'.params "radius").map ParamInfo.value = some v := by
  have hc : containsParam st.params "radius" = true := by
    simp [containsParam, hr]
  have hsp : set_param st.params "radius" (some v) none none none =
      .ok (mapAt st.params "radius" (fun q =>
        (⟨v, q.min, q.max, q.vary, q.description⟩ : ParamInfo))) := by
    simp [set_param, hc]
  have hl1 : lookupParam (mapAt st.params "radius" (fun q =>
      (⟨v, q.min, q.max, q.vary, q.description⟩ : ParamInfo))) "radius" =
      some ⟨v, pr.min, pr.max, pr.vary, pr.description⟩ := by
    rw [lookupParam_mapAt_self, hr]
    rfl
  have hssf : set_param_sf st "radius" (some v) none none none =
      .ok { st with params :=
        syncRadiusEffective (mapAt st.params "radius" (fun q =>
          (⟨v, q.min, q.max, q.vary, q.description⟩ : ParamInfo))) v } := by
    simp [set_param_sf, hsp, hmode, hl1]
  refine ⟨_, { pe with value := v }, hssf, ?_, rfl, hv, ?_⟩
  · show lookupParam (syncRadiusEffective _ v) "radius_effective" = _
    unfold syncRadiusEffective
    rw [lookupParam_mapAt_self, lookupParam_mapAt_ne st.params _ (by decide), he]
    rfl
  · show (lookupParam (syncRadiusEffective _ v) "radius").map ParamInfo.value = _
    unfold syncRadiusEffective
    rw [lookupParam_mapAt_ne _ _ (by decide), hl1]
    rfl

/-- C2 witness: in the concrete linked state, setting `radius` to 75
drives `radius_effective.value` to 75 with vary still false. -/
theorem C2_witness :
    (cStateSF.radiusEffectiveMode = some "link_radius" ∧
      lookupParam cStateSF.params "radius" =
        some ⟨20, XFloat.num 1, XFloat.num 1000, false, "cylinder radius"⟩ ∧
      lookupParam cStateSF.params "radius_effective" =
        some ⟨20, XFloat.num 0, XFloat.posInf, false, "Structure factor parameter"⟩) ∧
    (∃ st' pe', set_param_sf cStateSF "radius" (some 75) none none none = .ok st' ∧
      lookupParam st'.params "radius_effective" = some pe' ∧
      pe'.value = 75 ∧ pe'.vary = false ∧
      (lookupParam st'.params "radius").map ParamInfo.value = some 75) :=
  ⟨⟨by decide, by decide, by decide⟩,
    C2_theorem cStateSF 75
      ⟨20, XFloat.num 1, XFloat.num 1000, false, "cylinder radius"⟩
      ⟨20, XFloat.num 0, XFloat.posInf, false, "Structure factor parameter"⟩
      (by decide) (by decide) (by decide) (by decide)⟩

/-- The `radius_effective` name is in every structure-factor parameter
set. -/
theorem re_mem_sfParamNames (kind : String) :
    "radius_effective" ∈ sfParamNames kind := by
  by_cases h : kind = "hayter_msa" <;> simp [sfParamNames, h]

/-- C8: attaching a structure factor changes no parameter outside the
merged set, and removing it deletes exactly the merged names while
returning every surviving parameter with the value it has at removal
time — edits made between merge and remove included, since the removal
statement quantifies over an arbitrary attached state. -/
theorem C8_theorem :
    (∀ (st : FitterState) (kind mode : String) (st1 : FitterState),
      set_structure_factor st kind mode = .ok st1 →
      ∀ n, n ∉ sfParamNames kind →
        lookupParam st1.params n = lookupParam st.params n) ∧
    (∀ (st2 : FitterState) (kind : String) (st3 : FitterState),
      st2.structureFactor = some kind →
      remove_structure_factor st2 = .ok st3 →
      (∀ n, n ∉ sfParamNames kind →
        lookupParam st3.params n = lookupParam st2.params n) ∧
      (∀ n, n ∈ sfParamNames kind → lookupParam st3.params n = none)) := by
  constructor
  · intro st kind mode st1 h n hn
    have hnre : n ≠ "radius_effective" :=
      fun hh => hn (hh ▸ re_mem_sfParamNames kind)
    have hnames : ∀ a ∈ sfParamNames kind, a ≠ n :=
      fun a ha hh => hn (hh ▸ ha)
    have hmerged : lookupParam ((sfParamNames kind).foldl
        (fun ps m => insertReplace ps m (sfDefaultParam m)) st.params) n =
        lookupParam st.params n :=
      lookup_foldlIns_notmem (fun s => s) sfDefaultParam _ _ _ hnames
    unfold set_structure_factor at h
    split_ifs at h with h1 h2 h3 hm
    · injection h with h4
      rw [← h4]
      cases hlr : lookupParam ((sfParamNames kind).foldl
          (fun ps m => insertReplace ps m (sfDefaultParam m)) st.params) "radius" with
      | none => exact hmerged
      | some prr =>
          rw [lookupParam_mapAt_ne _ _ hnre]
          unfold syncRadiusEffective
          rw [lookupParam_mapAt_ne _ _ hnre]
          exact hmerged
    · injection h with h4
      rw [← h4]
      exact hmerged
  · intro st2 kind st3 hsf h
    have h3 : st3.params = st2.params.filter
        (fun e => !(sfParamNames kind).contains e.1) := by
      unfold remove_structure_factor at h
      rw [hsf] at h
      injection h with h4
      rw [← h4]
    constructor
    · intro n hn
      have hcn : ((sfParamNames kind).contains n) = false := by
        simpa using hn
      rw [h3, lookup_filter_contains, hcn]
      rfl
    · intro n hn
      have hcn : ((sfParamNames kind).contains n) = true := by
        simpa using hn
      rw [h3, lookup_filter_contains, hcn]
      rfl

/-- C8 witness: on the concrete attach-edit-remove run, `radius` keeps
its edited value 77 after removal and `volfraction` is gone. -/
theorem C8_witness :
    (cStateSFe.structureFactor = some "hardsphere" ∧
      remove_structure_factor cStateSFe = .ok cStateRm ∧
      lookupParam cStateSFe.params "radius" =
        some ⟨77, XFloat.num 1, XFloat.num 1000, false, "cylinder radius"⟩) ∧
    lookupParam cStateRm.params "radius" = lookupParam cStateSFe.params "radius" ∧
    lookupParam cStateRm.params "volfraction" = none :=
  ⟨⟨by decide, by decide, by decide⟩,
    (C8_theorem.2 cStateSFe "hardsphere" cStateRm (by decide) (by decide)).1
      "radius" (by decide),
    (C8_theorem.2 cStateSFe "hardsphere" cStateRm (by decide) (by decide)).2
      "volfraction" (by decide)⟩

/-- Helper: a base-registry entry survives the two implicit-entry
appends of `set_model`. -/
theorem lookup_buildParams_of_base {info : ModelInfo} {n : String} {p : ParamInfo}
    (hbase : lookupParam (info.kernel_parameters.foldl
      (fun ps kp => insertReplace ps kp.name (derivedParam kp)) []) n = some p) :
    lookupParam (buildParams info) n = some p := by
  simp only [buildParams]
  set b := info.kernel_parameters.foldl
    (fun ps kp => insertReplace ps kp.name (derivedParam kp)) [] with hb
  by_cases h1 : containsParam b "scale" = true
  · rw [if_pos h1]
    by_cases h2 : containsParam b "background" = true
    · rw [if_pos h2]
      exact hbase
    · rw [if_neg h2]
      exact lookupParam_append_left hbase
  · rw [if_neg h1]
    by_cases h2 : containsParam (b ++ [("scale", implicitScale)]) "background" = true
    · rw [if_pos h2]
      exact lookupParam_append_left hbase
    · rw [if_neg h2]
      exact lookupParam_append_left (lookupParam_append_left hbase)

/-- Helper: when the model does not declare `scale`, `set_model` adds
the implicit entry. -/
theorem lookup_buildParams_scale {info : ModelInfo}
    (h : ∀ kp ∈ info.kernel_parameters, kp.name ≠ "scale") :
    lookupParam (buildParams info) "scale" = some implicitScale := by
  have hbase : lookupParam (info.kernel_parameters.foldl
      (fun ps kp => insertReplace ps kp.name (derivedParam kp)) []) "scale" = none :=
    (lookup_foldlIns_notmem KernelParam.name derivedParam
      info.kernel_parameters [] "scale" h).trans rfl
  have hc : containsParam (info.kernel_parameters.foldl
      (fun ps kp => insertReplace ps kp.name (derivedParam kp)) []) "scale" = false := by
    simp [containsParam, hbase]
  simp only [buildParams]
  set b := info.kernel_parameters.foldl
    (fun ps kp => insertReplace ps kp.name (derivedParam kp)) [] with hb
  have hc1 : ¬ containsParam b "scale" = true := by
    rw [hc]
    exact Bool.false_ne_true
  rw [if_neg hc1]
  have hsc : lookupParam (b ++ [("scale", implicitScale)]) "scale" =
      some implicitScale := by
    rw [lookupParam_append_right hbase, lookupParam_cons, if_pos rfl]
  by_cases h2 : containsParam (b ++ [("scale", implicitScale)]) "background" = true
  · rw [if_pos h2]
    exact hsc
  · rw [if_neg h2]
    exact lookupParam_append_left hsc

/-- Helper: when the model does not declare `background`, `set_model`
adds the implicit entry. -/
theorem lookup_buildParams_background {info : ModelInfo}
    (h : ∀ kp ∈ info.kernel_parameters, kp.name ≠ "background") :
    lookupParam (buildParams info) "background" = some implicitBackground := by
  have hbase : lookupParam (info.kernel_parameters.foldl
      (fun ps kp => insertReplace ps kp.name (derivedParam kp)) []) "background" = none :=
    (lookup_foldlIns_notmem KernelParam.name derivedParam
      info.kernel_parameters [] "background" h).trans rfl
  simp only [buildParams]
  set b := info.kernel_parameters.foldl
    (fun ps kp => insertReplace ps kp.name (derivedParam kp)) [] with hb
  by_cases h1 : containsParam b "scale" = true
  · rw [if_pos h1]
    have hc2 : containsParam b "background" = false := by
      simp [containsParam, hbase]
    have hc2' : ¬ containsParam b "background" = true := by
      rw [hc2]
      exact Bool.false_ne_true
    rw [if_neg hc2']
    rw [lookupParam_append_right hbase, lookupParam_cons, if_pos rfl]
  · rw [if_neg h1]
    have hw : lookupParam (b ++ [("scale", implicitScale)]) "background" = none := by
      rw [lookupParam_append_right hbase, lookupParam_cons,
        if_neg (by decide), lookupParam_nil]
    have hc2 : containsParam (b ++ [("scale", implicitScale)]) "background" = false := by
      simp [containsParam, hw]
    have hc2' : ¬ containsParam (b ++ [("scale", implicitScale)]) "background" = true := by
      rw [hc2]
      exact Bool.false_ne_true
    rw [if_neg hc2']
    rw [lookupParam_append_right hw, lookupParam_cons, if_pos rfl]

/-- C5: for every successful model selection with distinct declared
names, `set_model` gives each declared parameter its default as value,
the declared lower bound if finite else 0 as min, the declared upper
bound if finite else ten times the default as max, and `vary = false`;
and the registry contains the implicit `scale` (value 1) and
`background` (value 0) entries, both fixed with bounds [0, ∞), whenever
the model does not declare them. -/
theorem C5_theorem (st : FitterState) (mname : String) (info : ModelInfo)
    (hnd : (info.kernel_parameters.map KernelParam.name).Nodup) :
    (∀ kp ∈ info.kernel_parameters,
      lookupParam (set_model st mname (.ok info)).1.params kp.name =
        some ⟨kp.default,
          (if kp.limitLo = XFloat.negInf then XFloat.num 0 else kp.limitLo),
          (if kp.limitHi = XFloat.posInf then XFloat.num (kp.default * 10) else kp.limitHi),
          false, kp.description⟩) ∧
    ((∀ kp ∈ info.kernel_parameters, kp.name ≠ "scale") →
      lookupParam (set_model st mname (.ok info)).1.params "scale" =
        some implicitScale) ∧
    ((∀ kp ∈ info.kernel_parameters, kp.name ≠ "background") →
      lookupParam (set_model st mname (.ok info)).1.params "background" =
        some implicitBackground) := by
  refine ⟨?_, ?_, ?_⟩
  · intro kp hkp
    show lookupParam (buildParams info) kp.name = some (derivedParam kp)
    exact lookup_buildParams_of_base
      (lookup_foldlIns_mem KernelParam.name derivedParam [] hnd hkp)
  · intro h
    show lookupParam (buildParams info) "scale" = some implicitScale
    exact lookup_buildParams_scale h
  · intro h
    show lookupParam (buildParams info) "background" = some implicitBackground
    exact lookup_buildParams_background h

/-- C5 witness: the concrete model produces the expected `radius` entry. -/
theorem C5_witness :
    (cModel.kernel_parameters.map KernelParam.name).Nodup ∧
    lookupParam (set_model initState "sphere" (.ok cModel)).1.params "radius" =
      some ⟨20, XFloat.num 1, XFloat.num 1000, false, "cylinder radius"⟩ :=
  ⟨by decide,
    (C5_theorem initState "sphere" cModel (by decide)).1
      ⟨"radius", 20, XFloat.num 1, XFloat.num 1000, "cylinder radius"⟩
      (by decide)⟩

/-- Helper: the lmfit assembly with an all-zero error vector reports a
result whose varying entries all carry standard error 0 and the bare
value format. -/
theorem lmfitAssemble_zero_spec (st : FitterState) (meth : String)
    (fitted : ℕ → ℚ) (chisq : ℚ) (hnd : (paramNames st.params).Nodup) :
    ∃ r, (lmfitAssemble st meth fitted (fun _ => 0) chisq).2 = .ok r ∧
      ∀ j (hj : j < (varyingNames st.params).length),
        lookupParam r.parameters ((varyingNames st.params).get ⟨j, hj⟩) =
          some ⟨fitted j, 0, FormattedVal.plain (fitted j)⟩ := by
  refine ⟨_, rfl, ?_⟩
  intro j hj
  have hv := @lookup_mapIdxFrom_get
    (fun i _ => { value := fitted i, stderr := (0 : ℚ)
                  formatted := if (0 : ℚ) < 0 then FormattedVal.withErr (fitted i) 0
                               else FormattedVal.plain (fitted i) })
    (varyingNames st.params) (varyingNames_nodup hnd) j hj 0
  rw [Nat.zero_add] at hv
  refine lookupParam_append_left (hv.trans ?_)
  rw [if_neg (lt_irrefl (0 : ℚ))]

/-- C6: the degraded-uncertainty paths of `_fit_lmfit` never fail the
fit: `leastsq` with no covariance reports standard error 0 on every
varying parameter, `least_squares` with a singular Jacobian inversion
likewise, and `differential_evolution` always reports 0. -/
theorem C6_theorem (st : FitterState) (d : DataSet) (lr : LmResult)
    (calcF : Calculator) (hnd : (paramNames st.params).Nodup) :
    (lr.leastsqCov = none →
      ∃ r, (fit_lmfit st d "leastsq" lr calcF).2 = .ok r ∧
        ∀ j (hj : j < (varyingNames st.params).length),
          lookupParam r.parameters ((varyingNames st.params).get ⟨j, hj⟩) =
            some ⟨lr.leastsqX j, 0, FormattedVal.plain (lr.leastsqX j)⟩) ∧
    (lr.lsqInvDiag = none →
      ∃ r, (fit_lmfit st d "least_squares" lr calcF).2 = .ok r ∧
        ∀ j (hj : j < (varyingNames st.params).length),
          lookupParam r.parameters ((varyingNames st.params).get ⟨j, hj⟩) =
            some ⟨lr.lsqX j, 0, FormattedVal.plain (lr.lsqX j)⟩) ∧
    (∃ r, (fit_lmfit st d "differential_evolution" lr calcF).2 = .ok r ∧
      ∀ j (hj : j < (varyingNames st.params).length),
        lookupParam r.parameters ((varyingNames st.params).get ⟨j, hj⟩) =
          some ⟨lr.deX j, 0, FormattedVal.plain (lr.deX j)⟩) := by
  refine ⟨?_, ?_, ?_⟩
  · intro hcov
    have heq : fit_lmfit st d "leastsq" lr calcF =
        lmfitAssemble st "leastsq" lr.leastsqX (fun _ => 0)
          (sumSq (residual calcF d st.params (varyingNames st.params) lr.leastsqX)) := by
      simp [fit_lmfit, hcov]
    rw [heq]
    exact lmfitAssemble_zero_spec st "leastsq" lr.leastsqX _ hnd
  · intro hcov
    have heq : fit_lmfit st d "least_squares" lr calcF =
        lmfitAssemble st "least_squares" lr.lsqX (fun _ => 0) (sumSq lr.lsqFun) := by
      simp [fit_lmfit, hcov]
    rw [heq]
    exact lmfitAssemble_zero_spec st "least_squares" lr.lsqX _ hnd
  · have heq : fit_lmfit st d "differential_evolution" lr calcF =
        lmfitAssemble st "differential_evolution" lr.deX (fun _ => 0) lr.deFun := by
      simp [fit_lmfit]
    rw [heq]
    exact lmfitAssemble_zero_spec st "differential_evolution" lr.deX _ hnd

/-- C6 witness: on the concrete no-covariance backend outcome every
varying parameter of the differential-evolution result carries stderr 0. -/
theorem C6_witness :
    (paramNames cStateV.params).Nodup ∧
    (∃ r, (fit_lmfit cStateV cData "differential_evolution" cLm cCalc).2 = .ok r ∧
      ∀ j (hj : j < (varyingNames cStateV.params).length),
        lookupParam r.parameters ((varyingNames cStateV.params).get ⟨j, hj⟩) =
          some ⟨cLm.deX j, 0, FormattedVal.plain (cLm.deX j)⟩) :=
  ⟨by decide, (C6_theorem cStateV cData cLm cCalc (by decide)).2.2⟩

/-- C1 counterexample: on a concrete state with varying `radius` and
fixed `sld`, a successful bumps fit returns a result whose parameter
mapping is exactly the varying `radius` entry — the fixed `sld`, though
present in the registry, does not appear (the claim requires it with
held value, stderr 0 and a fixed annotation). -/
theorem C1_counterexample :
    (fit cStateV "bumps" none true cB cLm cCalc).2 =
      .ok { engine := "bumps", method := "amoeba", chisq := 1,
            parameters := [("radius", ⟨25, 2, FormattedVal.bumpsFmt 25 2⟩)] } ∧
    lookupParam cStateV.params "sld" =
      some ⟨2, XFloat.num (-10), XFloat.num 10, false, "scattering length density"⟩ ∧
    lookupParam (resParamsOf (fit cStateV "bumps" none true cB cLm cCalc).2) "sld" =
      none := by
  refine ⟨by decide, by decide, by decide⟩

/-- Helper: what the shared lmfit result assembly guarantees — the call
succeeds, every fixed registry parameter appears with its held value,
stderr 0 and the fixed annotation while staying untouched in the
registry, and every varying parameter appears with its fitted value,
which is also written back into the registry. -/
theorem lmfitAssemble_spec (st : FitterState) (meth : String)
    (fitted errs : ℕ → ℚ) (chisq : ℚ) (hnd : (paramNames st.params).Nodup) :
    ∃ r, (lmfitAssemble st meth fitted errs chisq).2 = .ok r ∧
      (∀ n p, lookupParam st.params n = some p → p.vary = false →
        lookupParam r.parameters n =
          some ⟨p.value, 0, FormattedVal.fixedTag p.value⟩ ∧
        lookupParam (lmfitAssemble st meth fitted errs chisq).1.params n = some p) ∧
      (∀ j (hj : j < (varyingNames st.params).length),
        (∃ en, lookupParam r.parameters ((varyingNames st.params).get ⟨j, hj⟩) =
            some en ∧ en.value = fitted j) ∧
        lookupParam (lmfitAssemble st meth fitted errs chisq).1.params
            ((varyingNames st.params).get ⟨j, hj⟩) =
          (lookupParam st.params ((varyingNames st.params).get ⟨j, hj⟩)).map
            (fun p => { p with value := fitted j })) := by
  refine ⟨_, rfl, ?_, ?_⟩
  · intro n p hl hv
    have hnv := not_mem_varyingNames_of_fixed hnd hl hv
    constructor
    · have h1 : lookupParam (mapIdxFrom
          (fun i _ => { value := fitted i, stderr := errs i,
                        formatted := if 0 < errs i then FormattedVal.withErr (fitted i) (errs i)
                                     else FormattedVal.plain (fitted i) })
          (varyingNames st.params) 0) n = none :=
        lookup_mapIdxFrom_notmem hnv
      have hcn : ((varyingNames st.params).contains n) = false := by
        simpa using hnv
      have hm2 := lookupParam_mapSnd
        (st.params.filter (fun e => !(varyingNames st.params).contains e.1))
        (fun q => (⟨q.value, 0, FormattedVal.fixedTag q.value⟩ : ResEntry)) n
      have hf := lookup_filter_contains st.params (varyingNames st.params) n
      have h2 : (lookupParam (st.params.filter
          (fun e => !(varyingNames st.params).contains e.1)) n).map
            (fun q => (⟨q.value, 0, FormattedVal.fixedTag q.value⟩ : ResEntry)) =
          some ⟨p.value, 0, FormattedVal.fixedTag p.value⟩ := by
        rw [hf, hcn, if_neg Bool.false_ne_true, hl]
        rfl
      exact (lookupParam_append_right h1).trans (hm2.trans h2)
    · exact (lookup_writeBackFrom_notmem hnv).trans hl
  · intro j hj
    constructor
    · have hv := @lookup_mapIdxFrom_get
        (fun i _ => { value := fitted i, stderr := errs i,
                      formatted := if 0 < errs i then FormattedVal.withErr (fitted i) (errs i)
                                   else FormattedVal.plain (fitted i) })
        (varyingNames st.params) (varyingNames_nodup hnd) j hj 0
      rw [Nat.zero_add] at hv
      exact ⟨_, lookupParam_append_left hv, rfl⟩
    · have hw := @lookup_writeBackFrom_get fitted false st.params
        (varyingNames st.params) (varyingNames_nodup hnd) j hj 0
      rw [Nat.zero_add] at hw
      exact hw

/-- C1 (amended): in both engines every varying parameter's fitted
value is written back into the registry and fixed parameters are left
exactly as they were; the lmfit result covers all registry parameters
(varying with their fitted value, fixed with held value, stderr 0 and
the fixed annotation); the bumps result instead contains exactly the
varying parameters, each with its fitted value, stderr and the bumps
uncertainty format — fixed parameters do not appear in it. -/
theorem C1_theorem (st : FitterState) (meth : String) (b : BumpsResult)
    (d : DataSet) (lmeth : String) (lr : LmResult) (calcF : Calculator)
    (hnd : (paramNames st.params).Nodup) :
    (paramNames (fit_bumps st meth b).2.parameters = varyingNames st.params) ∧
    (∀ j (hj : j < (varyingNames st.params).length),
      lookupParam (fit_bumps st meth b).2.parameters
          ((varyingNames st.params).get ⟨j, hj⟩) =
        some ⟨b.x j, b.dx j, FormattedVal.bumpsFmt (b.x j) (b.dx j)⟩ ∧
      lookupParam (fit_bumps st meth b).1.params
          ((varyingNames st.params).get ⟨j, hj⟩) =
        (lookupParam st.params ((varyingNames st.params).get ⟨j, hj⟩)).map
          (fun p => { p with value := b.x j })) ∧
    (∀ n p, lookupParam st.params n = some p → p.vary = false →
      lookupParam (fit_bumps st meth b).1.params n = some p ∧
      lookupParam (fit_bumps st meth b).2.parameters n = none) ∧
    (lmeth ∈ ["leastsq", "least_squares", "differential_evolution"] →
      ∃ r, (fit_lmfit st d lmeth lr calcF).2 = .ok r ∧
        (∀ n p, lookupParam st.params n = some p → p.vary = false →
          lookupParam r.parameters n =
            some ⟨p.value, 0, FormattedVal.fixedTag p.value⟩ ∧
          lookupParam (fit_lmfit st d lmeth lr calcF).1.params n = some p) ∧
        (∀ j (hj : j < (varyingNames st.params).length),
          (∃ en, lookupParam r.parameters ((varyingNames st.params).get ⟨j, hj⟩) =
              some en ∧ en.value = lmFitted lmeth lr j) ∧
          lookupParam (fit_lmfit st d lmeth lr calcF).1.params
              ((varyingNames st.params).get ⟨j, hj⟩) =
            (lookupParam st.params ((varyingNames st.params).get ⟨j, hj⟩)).map
              (fun p => { p with value := lmFitted lmeth lr j }))) := by
  refine ⟨?_, ?_, ?_, ?_⟩
  · exact mapIdxFrom_keys _ (varyingNames st.params) 0
  · intro j hj
    constructor
    · have hv := @lookup_mapIdxFrom_get
        (fun i _ => { value := b.x i, stderr := b.dx i,
                      formatted := FormattedVal.bumpsFmt (b.x i) (b.dx i) })
        (varyingNames st.params) (varyingNames_nodup hnd) j hj 0
      rw [Nat.zero_add] at hv
      exact hv
    · have hw := @lookup_writeBackFrom_get b.x true st.params
        (varyingNames st.params) (varyingNames_nodup hnd) j hj 0
      rw [Nat.zero_add] at hw
      exact hw
  · intro n p hl hv
    have hnv := not_mem_varyingNames_of_fixed hnd hl hv
    exact ⟨(lookup_writeBackFrom_notmem hnv).trans hl, lookup_mapIdxFrom_notmem hnv⟩
  · intro hm
    have hsplit : ∃ errsF chisqF, fit_lmfit st d lmeth lr calcF =
        lmfitAssemble st lmeth (lmFitted lmeth lr) errsF chisqF := by
      simp only [List.mem_cons, List.not_mem_nil, or_false] at hm
      rcases hm with hm | hm | hm <;> subst hm
      · exact ⟨(match lr.leastsqCov with
            | some diag => fun i => Rat.sqrt (diag i)
            | none => fun _ => 0),
          sumSq (residual calcF d st.params (varyingNames st.params) lr.leastsqX),
          by simp [fit_lmfit, lmFitted]⟩
      · exact ⟨(match lr.lsqInvDiag with
            | some diag => fun i => Rat.sqrt (diag i)
            | none => fun _ => 0),
          sumSq lr.lsqFun, by simp [fit_lmfit, lmFitted]⟩
      · exact ⟨fun _ => 0, lr.deFun, by simp [fit_lmfit, lmFitted]⟩
    obtain ⟨errsF, chisqF, heq⟩ := hsplit
    rw [heq]
    exact lmfitAssemble_spec st lmeth (lmFitted lmeth lr) errsF chisqF hnd

/-- C1 witness: on the concrete varying/fixed registry the bumps result
keys are exactly the varying names. -/
theorem C1_witness :
    (paramNames cStateV.params).Nodup ∧
    paramNames (fit_bumps cStateV "amoeba" cB).2.parameters =
      varyingNames cStateV.params :=
  ⟨by decide,
    (C1_theorem cStateV "amoeba" cB cData "leastsq" cLm cCalc (by decide)).1⟩

end SansFitter
